import Mathlib

/-!
# Hegel metadata service: path resolver, request handlers, availability tracker

A shallow embedding of `http_handlers.go` and `http-server/http_server.go`.

Conventions of the embedding:

* a Go `string` (and a `[]byte`) is a Lean `String`, so only valid UTF-8 is
  covered; the separator `/` is one byte, so splitting by characters and by
  bytes agree there; the library calls
  `strings.TrimPrefix`, `strings.TrimRight`, `strings.Split` and `fmt.Sprint`
  are re-implemented on the character list of the string, by structural
  recursion, so that every definition evaluates on concrete inputs;
* a Go `interface{}` holding `nil`, a `string` or a `map[string]interface{}`
  is the type `Iface`; a map is an association list with unique keys read by
  `Iface.index` (Go map indexing, absent key gives `nil`);
* a Go call either returns its `(value, error)` pair or panics: `GoResult`;
* the external collaborators of the handlers (backend lookup, query
  execution, environment variables, map iteration order) are fields of `Env`;
* the response writer follows `net/http`: the first `WriteHeader` fixes the
  status, a `Write` before any `WriteHeader` sends 200;
* the availability flag is named `isCacherAvailable` where the health check
  reads it and `isHardwareClientAvailable` where the prober writes it; the
  health check takes the value read as an argument, and `healthStatus` passes
  it the flag of the tracker.
-/

set_option autoImplicit false

namespace Hegel

/-! ## Go values -/

/-- Values of Go type `interface{}` that occur in the filter tree and in the
resolver: `nil`, a `string`, or a `map[string]interface{}`. -/
inductive Iface where
  | nil
  | str (s : String)
  | map (m : List (String × Iface))

/-- Go map indexing `m[key]` on a `map[string]interface{}`: the value stored
under `key`, or the zero value `nil` when the key is absent. -/
def Iface.index : List (String × Iface) → String → Iface
  | [], _ => Iface.nil
  | (k, v) :: rest, key => if key = k then v else Iface.index rest key

/-- Keys of a map, in the order of the association list. -/
def Iface.keys (m : List (String × Iface)) : List String :=
  m.map Prod.fst

/-- Outcome of a Go call with signature `(T, error)`: it returns the pair
(`err = none` is a `nil` error), or the goroutine panics. -/
inductive GoResult (α : Type) where
  | ret (val : α) (err : Option String)
  | panic

/-! ## The Go string library calls used by the resolver -/

/-- Go `strings.TrimPrefix(s, p)`: `s` without the leading `p`, or `s` itself
when `s` does not start with `p`. -/
def TrimPrefix (s p : String) : String :=
  if p.data.isPrefixOf s.data then String.mk (s.data.drop p.data.length) else s

/-- Go `strings.TrimRight(s, cutset)`: `s` with all trailing characters that
occur in `cutset` removed. -/
def TrimRight (s cutset : String) : String :=
  String.mk (s.data.reverse.dropWhile (fun c => decide (c ∈ cutset.data))).reverse

/-- Splitting a character list at every occurrence of `sep`; the result has
one more piece than there are separators. -/
def splitChars (sep : Char) : List Char → List (List Char)
  | [] => [[]]
  | c :: cs =>
    if c = sep then [] :: splitChars sep cs
    else
      match splitChars sep cs with
      | [] => [[c]]
      | piece :: pieces => (c :: piece) :: pieces

/-- Go `strings.Split(s, sep)` for a one-character separator: the substrings
between the separators; an empty `s` gives the one-element slice `[""]`. -/
def Split (s : String) (sep : Char) : List String :=
  (splitChars sep s.data).map String.mk

/-- Go `fmt.Sprint(a, b)` on two string operands: no space is added between
operands that are strings, so the result is the concatenation. -/
def Sprint (a b : String) : String := a ++ b

/-! ## The filter tree -/

/-- The map literal under `"license_activation"`. -/
def licenseActivation : List (String × Iface) :=
  [ ("_base", .str ".license_activation"),
    ("state", .str ".state") ]

/-- The map literal under `"operating-system"`. -/
def operatingSystem : List (String × Iface) :=
  [ ("_base", .str ".operating_system"),
    ("slug", .str ".slug"),
    ("distro", .str ".distro"),
    ("version", .str ".version"),
    ("license_activation", .map licenseActivation),
    ("image_tag", .str ".image_tag") ]

/-- The map literal under `"meta-data"`. -/
def metaData : List (String × Iface) :=
  [ ("_base", .str ".metadata.instance"),
    ("instance-id", .str ".id"),
    ("hostname", .str ".hostname"),
    ("iqn", .str ".iqn"),
    ("plan", .str ".plan"),
    ("facility", .str ".facility"),
    ("tags", .str ".tags[]"),
    ("operating-system", .map operatingSystem),
    ("public-keys", .str ".ssh_keys[]"),
    ("spot", .str ".spot.termination_time"),
    ("public-ipv4", .str
      ".network.addresses[] | select(.address_family == 4 and .public == true) | .address"),
    ("public-ipv6", .str
      ".network.addresses[] | select(.address_family == 6 and .public == true) | .address"),
    ("local-ipv4", .str
      ".network.addresses[] | select(.address_family == 4 and .public == false) | .address") ]

/-- The package variable `ec2Filters`: the root of the filter tree. -/
def ec2Filters : List (String × Iface) :=
  [ ("user-data", .str ".metadata.userdata"),
    ("meta-data", .map metaData) ]

/-! ## The path resolver -/

/-- The error value `errors.New("invalid metadata item")`. -/
def invalidMetadataItem : String := "invalid metadata item"

/-- The body of `for _, accessor := range accessors` in `processEC2Query`,
with the loop variables `base` and `res` as arguments; the end of the list is
the `return res, nil` after the loop.

The type assertion `res.(map[string]interface{})` has no `ok` form: it panics
when `res` is not a map. So does `subfilters["_base"].(string)`. -/
def processLoop : List String → String → Iface → GoResult Iface
  | [], _, res => .ret res none
  | accessor :: rest, base, res =>
    if accessor = "_base" then .ret .nil (some invalidMetadataItem)
    else
      match res with
      | .map m =>
        match Iface.index m accessor with
        | .str filter => processLoop rest base (.str (Sprint base filter))
        | .map subfilters =>
          match Iface.index subfilters "_base" with
          | .str b => processLoop rest (Sprint base b) (.map subfilters)
          | _ => .panic
        | .nil => .ret .nil (some invalidMetadataItem)
      | _ => .panic

/-- The first two statements of `processEC2Query`: the accessors of a path. -/
def accessorsOf (query : String) : List String :=
  Split (TrimRight (TrimPrefix query "/2009-04-04/") "/") '/'

/-- Go `processEC2Query(query)`. -/
def processEC2Query (query : String) : GoResult Iface :=
  processLoop (accessorsOf query) "" (.map ec2Filters)

/-! ## The claim's reading of a path down to a Terminal -/

/-- The request path `s1/.../sn` built from its segments. -/
def joinSegments : List String → String
  | [] => ""
  | [s] => s
  | s :: rest => s ++ "/" ++ joinSegments rest

/-- The resolved query as the specification words it: the segments
`s1..s(n-1)` name nested Composite nodes, `sn` names a Terminal child of the
node reached, and the query is the `_base` prefixes of the Composite nodes
traversed, in path order, followed by the Terminal's expression. The reserved
key `_base` names no child. `none` when the segments are not of that form. -/
def terminalQuery : List (String × Iface) → List String → Option String
  | _, [] => none
  | m, [s] =>
    if s = "_base" then none
    else
      match Iface.index m s with
      | .str e => some e
      | _ => none
  | m, s :: rest =>
    if s = "_base" then none
    else
      match Iface.index m s with
      | .map sub =>
        match Iface.index sub "_base" with
        | .str b => (terminalQuery sub rest).map (fun q => b ++ q)
        | _ => none
      | _ => none

/-- The Composite nodes of the filter tree: the root and the nested maps. -/
def filterNodes : List (List (String × Iface)) :=
  [ec2Filters, metaData, operatingSystem, licenseActivation]

/-- A path segment that is not empty and holds no slash. -/
abbrev cleanKey (s : String) : Prop := s.data ≠ [] ∧ '/' ∉ s.data

/-! ## The HTTP response writer -/

/-- State of a `net/http` response writer: the status code once the header is
written, the header map, the header map as it was sent, and the body. -/
structure ResponseWriter where
  status : Option Nat
  header : List (String × String)
  sentHeader : List (String × String)
  body : String
  deriving DecidableEq, Repr

/-- The writer a handler receives: nothing written yet. -/
def ResponseWriter.fresh : ResponseWriter :=
  { status := none, header := [], sentHeader := [], body := "" }

/-- Go `w.WriteHeader(code)`: the first call sends the status line and the
headers; a later call is superfluous and changes nothing. -/
def ResponseWriter.WriteHeader (w : ResponseWriter) (code : Nat) : ResponseWriter :=
  match w.status with
  | some _ => w
  | none => { w with status := some code, sentHeader := w.header }

/-- Go `w.Header().Set(key, value)`. -/
def ResponseWriter.SetHeader (w : ResponseWriter) (key value : String) : ResponseWriter :=
  { w with header := (key, value) :: w.header.filter (fun kv => kv.1 ≠ key) }

/-- Go `w.Write(b)`: writes the header with status 200 when none was written,
then appends `b` to the body. -/
def ResponseWriter.Write (w : ResponseWriter) (b : String) : ResponseWriter :=
  let w1 := w.WriteHeader 200
  { w1 with body := w1.body ++ b }

/-! ## The metadata handlers -/

/-- The fields of `*http.Request` the handlers read. -/
structure Request where
  Method : String
  RemoteAddr : String
  Path : String

/-- The collaborators of the handlers that are not part of these two files. A
Go `(value, error)` result is a pair whose second component is `none` for a
`nil` error. -/
structure Env where
  /-- The host returned by `net.SplitHostPort`. -/
  splitHostPort : String → String
  /-- The backend lookup `getByIP(ctx, hegelServer, userIP)`. -/
  getByIP : String → String × Option String
  /-- The query executor `filterMetadata(hw, filter)`. -/
  filterMetadata : String → String → String × Option String
  /-- The legacy export `exportHardware(hw)`. -/
  exportHardware : String → String × Option String
  /-- The value of `os.Getenv("DATA_MODEL_VERSION")`. -/
  dataModelVersion : String
  /-- The order in which `range` visits the keys of a map. -/
  rangeOrder : List (String × Iface) → List String
  /-- The result of `json.Marshal(&res)` in the health check, given the
  `cacher_status` field. -/
  marshalHealth : Bool → String × Option String

/-- Calls a handler makes to metrics and to its collaborators, in order.
Logger calls are left out: they change neither the response nor a metric. -/
inductive Event where
  | metadataRequestsInc
  | errorsInc (label1 label2 : String)
  | getByIP (userIP : String)
  | processEC2Query (path : String)
  | filterMetadata (hw filter : String)
  | exportHardware (hw : String)
  deriving DecidableEq, Repr

/-- How a handler invocation ends: it returns, it panics, or `logger.Fatal`
stops it. -/
inductive Ending where
  | returned
  | panicked
  | fatal
  deriving DecidableEq, Repr

/-- The result of running a handler: the response writer, the calls made, and
how the handler ended. -/
structure Run where
  w : ResponseWriter
  events : List Event
  ending : Ending
  deriving DecidableEq, Repr

/-- Go `getIPFromRequest(r)`. -/
def getIPFromRequest (env : Env) (r : Request) : String :=
  if ':' ∈ r.RemoteAddr.data then env.splitHostPort r.RemoteAddr else r.RemoteAddr

/-- Go `fmt.Sprintln(a)` on one string operand. -/
def Sprintln (a : String) : String := a ++ "\n"

/-- A sequence of newline-terminated lines, one name per line. -/
def linesOf : List String → String
  | [] => ""
  | name :: rest => name ++ "\n" ++ linesOf rest

/-- The loop `for item := range submenu` of `ec2Handler`, over the keys in the
order `range` visits them, with the accumulator `resp`. The `case "spot":`
has an empty body, and Go cases do not fall through. -/
def listItems : List String → String → String
  | [], resp => resp
  | item :: rest, resp =>
    if item = "_base" then listItems rest resp
    else if item = "spot" then listItems rest resp
    else listItems rest (Sprintln (resp ++ item))

/-- The last four statements shared by `ec2Handler` and `getMetadata`:
`w.WriteHeader(http.StatusOK)`, the content type, `w.Write(resp)`. -/
def writeOK (w : ResponseWriter) (resp : String) : ResponseWriter :=
  ((w.WriteHeader 200).SetHeader "Content-Type" "application/json").Write resp

/-- Go `ec2Handler(w, r)`. After a failed resolution the handler writes the
404 response and does not return: `res` is `nil`, neither type assertion
succeeds, and the final statements run on the already written response. -/
def ec2Handler (env : Env) (r : Request) (w : ResponseWriter) : Run :=
  if r.Method ≠ "GET" then ⟨w, [], .returned⟩
  else
    let userIP := getIPFromRequest env r
    if userIP ≠ "" then
      let ev := [Event.metadataRequestsInc, Event.getByIP userIP]
      match env.getByIP userIP with
      | (_, some _) =>
        ⟨w.WriteHeader 500, ev ++ [Event.errorsInc "metadata" "lookup"], .returned⟩
      | (hw, none) =>
        let ev := ev ++ [Event.processEC2Query r.Path]
        match processEC2Query r.Path with
        | .panic => ⟨w, ev, .panicked⟩
        | .ret res err =>
          let w1 := match err with
            | some _ => (w.WriteHeader 404).Write "404 not found"
            | none => w
          match res with
          | .str filter =>
            match env.filterMetadata hw filter with
            | (_, some _) =>
              ⟨w1.WriteHeader 500, ev ++ [Event.filterMetadata hw filter], .returned⟩
            | (resp, none) =>
              ⟨writeOK w1 resp, ev ++ [Event.filterMetadata hw filter], .returned⟩
          | .map submenu =>
            ⟨writeOK w1 (listItems (env.rangeOrder submenu) ""), ev, .returned⟩
          | .nil => ⟨writeOK w1 "", ev, .returned⟩
    else ⟨w, [], .returned⟩

/-- The handler returned by Go `getMetadata(filter)`. An error of
`exportHardware` or `filterMetadata` is logged and the handler goes on. -/
def getMetadata (env : Env) (filter : String) (r : Request) (w : ResponseWriter) : Run :=
  if r.Method ≠ "GET" then ⟨w, [], .returned⟩
  else
    let userIP := getIPFromRequest env r
    if userIP = "" then ⟨w, [], .returned⟩
    else
      let ev := [Event.metadataRequestsInc, Event.getByIP userIP]
      match env.getByIP userIP with
      | (_, some _) =>
        ⟨w.WriteHeader 500, ev ++ [Event.errorsInc "metadata" "lookup"], .returned⟩
      | (hw, none) =>
        if env.dataModelVersion = "" then
          ⟨writeOK w (env.exportHardware hw).1, ev ++ [Event.exportHardware hw], .returned⟩
        else if env.dataModelVersion = "1" then
          ⟨writeOK w (env.filterMetadata hw filter).1,
            ev ++ [Event.filterMetadata hw filter], .returned⟩
        else ⟨w, ev, .fatal⟩

/-! ## The availability tracker and the health check -/

/-- The flag written by the prober together with the metrics it updates:
the gauge `CacherConnected`, the counter `CacherHealthcheck` under its labels
`"true"` and `"false"`, and the counter `Errors` under `("cacher",
"healthcheck")`. -/
structure Tracker where
  isHardwareClientAvailable : Bool
  cacherConnected : Int
  cacherHealthcheckTrue : Nat
  cacherHealthcheckFalse : Nat
  errorsCacherHealthcheck : Nat
  deriving DecidableEq, Repr

/-- The state at process start: the flag has the zero value `false` and the
metrics are at zero. -/
def Tracker.initial : Tracker :=
  { isHardwareClientAvailable := false, cacherConnected := 0,
    cacherHealthcheckTrue := 0, cacherHealthcheckFalse := 0,
    errorsCacherHealthcheck := 0 }

/-- Go `checkHardwareClientHealth()`, given the error `err` that the probe
`hegelServer.HardwareClient().All(ctx)` returned (`none` for `nil`). -/
def checkHardwareClientHealth (err : Option String) (s : Tracker) : Tracker :=
  let isHardwareClientAvailableTemp : Bool :=
    match err with
    | none => true
    | some _ => false
  let s1 := { s with isHardwareClientAvailable := isHardwareClientAvailableTemp }
  if isHardwareClientAvailableTemp then
    { s1 with cacherConnected := 1, cacherHealthcheckTrue := s1.cacherHealthcheckTrue + 1 }
  else
    { s1 with cacherConnected := 0, cacherHealthcheckFalse := s1.cacherHealthcheckFalse + 1,
              errorsCacherHealthcheck := s1.errorsCacherHealthcheck + 1 }

/-- The tracker after a history of probes, oldest first, from a given state:
one call of `checkHardwareClientHealth` per tick. -/
def runProbes (history : List (Option String)) (s : Tracker) : Tracker :=
  history.foldl (fun t err => checkHardwareClientHealth err t) s

/-- Go `healthCheckHandler(w, r)`, given the value of the availability flag
it reads under the read lock. -/
def healthCheckHandler (env : Env) (isCacherAvailable : Bool) (w : ResponseWriter) :
    ResponseWriter :=
  let isCacherAvailableTemp := isCacherAvailable
  let b := (env.marshalHealth isCacherAvailableTemp).1
  let w1 := match (env.marshalHealth isCacherAvailableTemp).2 with
    | some _ => w.WriteHeader 500
    | none => w
  let w2 := if !isCacherAvailableTemp then w1.WriteHeader 500 else w1
  (w2.SetHeader "Content-Type" "application/json").Write b

/-- The status code the health check sends after a history of probes. -/
def healthStatus (env : Env) (history : List (Option String)) : Option Nat :=
  (healthCheckHandler env (runProbes history Tracker.initial).isHardwareClientAvailable
    ResponseWriter.fresh).status

/-- The most recent probe of a history failed. An empty history has no most
recent probe. -/
def lastProbeFailed (history : List (Option String)) : Prop :=
  ∃ e, history.getLast? = some (some e)

/-! ## Concrete requests and environments used to evaluate the handlers -/

/-- An environment in which every collaborator succeeds. -/
def sampleEnv : Env :=
  { splitHostPort := fun s => String.mk (s.data.takeWhile (fun c => c ≠ ':')),
    getByIP := fun _ => ("hw", none),
    filterMetadata := fun _ filter => (filter, none),
    exportHardware := fun hw => (hw, none),
    dataModelVersion := "1",
    rangeOrder := Iface.keys,
    marshalHealth := fun _ => ("health", none) }

/-- An environment whose backend lookup fails. -/
def lookupFailsEnv : Env :=
  { sampleEnv with getByIP := fun _ => ("", some "not found") }

/-- An environment whose query executor fails. -/
def filterFailsEnv : Env :=
  { sampleEnv with filterMetadata := fun _ _ => ("", some "invalid filter") }

/-- The record of a spot instance, with a termination time under the path
the `spot` filter selects. -/
def spotRecord : String :=
  "\x7b\"metadata\":\x7b\"instance\":\x7b\"spot\":\x7b\"termination_time\":\"2020-06-01T00:00:00Z\"\x7d\x7d\x7d\x7d"

/-- An environment whose backend lookup returns the record `hw` for every
caller. -/
def recordEnv (hw : String) : Env :=
  { sampleEnv with getByIP := fun _ => (hw, none) }

/-- A `GET` request for `path` from `10.0.0.7:4321`. -/
def getRequest (path : String) : Request :=
  { Method := "GET", RemoteAddr := "10.0.0.7:4321", Path := path }

/-! ## The filter tree literal -/

/-- The named sub-maps assemble to the nested literal of the source. -/
theorem ec2Filters_literal :
    ec2Filters =
      [ ("user-data", .str ".metadata.userdata"),
        ("meta-data", .map
          [ ("_base", .str ".metadata.instance"),
            ("instance-id", .str ".id"),
            ("hostname", .str ".hostname"),
            ("iqn", .str ".iqn"),
            ("plan", .str ".plan"),
            ("facility", .str ".facility"),
            ("tags", .str ".tags[]"),
            ("operating-system", .map
              [ ("_base", .str ".operating_system"),
                ("slug", .str ".slug"),
                ("distro", .str ".distro"),
                ("version", .str ".version"),
                ("license_activation", .map
                  [ ("_base", .str ".license_activation"),
                    ("state", .str ".state") ]),
                ("image_tag", .str ".image_tag") ]),
            ("public-keys", .str ".ssh_keys[]"),
            ("spot", .str ".spot.termination_time"),
            ("public-ipv4", .str
              ".network.addresses[] | select(.address_family == 4 and .public == true) | .address"),
            ("public-ipv6", .str
              ".network.addresses[] | select(.address_family == 6 and .public == true) | .address"),
            ("local-ipv4", .str
              ".network.addresses[] | select(.address_family == 4 and .public == false) | .address") ]) ] :=
  rfl

/-! ## Splitting and trimming -/

theorem splitChars_noSep (sep : Char) (l : List Char) (h : sep ∉ l) :
    splitChars sep l = [l] := by
  induction l with
  | nil => rfl
  | cons c cs ih =>
    have hc : c ≠ sep := fun e => h (by simp [e])
    have hcs : sep ∉ cs := fun e => h (by simp [e])
    simp [splitChars, hc, ih hcs]

theorem splitChars_append_sep (sep : Char) (l r : List Char) (h : sep ∉ l) :
    splitChars sep (l ++ sep :: r) = l :: splitChars sep r := by
  induction l with
  | nil => simp [splitChars]
  | cons c cs ih =>
    have hc : c ≠ sep := fun e => h (by simp [e])
    have hcs : sep ∉ cs := fun e => h (by simp [e])
    simp [splitChars, hc, ih hcs]

theorem joinSegments_cons_cons (s t : String) (rest : List String) :
    joinSegments (s :: t :: rest) = s ++ "/" ++ joinSegments (t :: rest) := rfl

theorem splitChars_joinSegments (segs : List String) (hne : segs ≠ [])
    (h : ∀ s ∈ segs, cleanKey s) :
    splitChars '/' (joinSegments segs).data = segs.map String.data := by
  induction segs with
  | nil => exact absurd rfl hne
  | cons s rest ih =>
    cases rest with
    | nil =>
      simpa [joinSegments] using splitChars_noSep '/' s.data (h s (by simp)).2
    | cons t rest =>
      have h1 := ih (by simp) (fun x hx => h x (by simp [hx]))
      rw [joinSegments_cons_cons]
      have : (s ++ "/" ++ joinSegments (t :: rest)).data
          = s.data ++ '/' :: (joinSegments (t :: rest)).data := by
        simp [String.data_append]
      rw [this, splitChars_append_sep '/' _ _ (h s (by simp)).2, h1]
      simp

/-- Every key of every Composite node is a non-empty, slash-free segment. -/
theorem nodes_keys_clean : ∀ m ∈ filterNodes, ∀ s ∈ Iface.keys m, cleanKey s := by
  decide


theorem index_mem_of_str (m : List (String × Iface)) (s e : String)
    (h : Iface.index m s = .str e) : (s, Iface.str e) ∈ m := by
  induction m with
  | nil => simp [Iface.index] at h
  | cons p rest ih =>
    obtain ⟨k, v⟩ := p
    by_cases hk : s = k
    · simp [Iface.index, hk] at h
      simp [hk, h]
    · simp [Iface.index, hk] at h
      exact List.mem_cons_of_mem _ (ih h)

theorem index_mem_of_map (m : List (String × Iface)) (s : String)
    (sub : List (String × Iface))
    (h : Iface.index m s = .map sub) : (s, Iface.map sub) ∈ m := by
  induction m with
  | nil => simp [Iface.index] at h
  | cons p rest ih =>
    obtain ⟨k, v⟩ := p
    by_cases hk : s = k
    · simp [Iface.index, hk] at h
      simp [hk, h]
    · simp [Iface.index, hk] at h
      exact List.mem_cons_of_mem _ (ih h)

theorem index_nil_of_not_key (m : List (String × Iface)) (s : String)
    (h : s ∉ Iface.keys m) : Iface.index m s = .nil := by
  induction m with
  | nil => rfl
  | cons p rest ih =>
    obtain ⟨k, v⟩ := p
    simp [Iface.keys] at h
    have : s ∉ Iface.keys rest := by
      simp [Iface.keys]; exact h.2
    simp [Iface.index, h.1, ih this]

theorem mem_keys_of_mem (m : List (String × Iface)) (s : String) (v : Iface)
    (h : (s, v) ∈ m) : s ∈ Iface.keys m := by
  simp only [Iface.keys, List.mem_map]
  exact ⟨(s, v), h, rfl⟩

theorem nodes_closed : ∀ m ∈ filterNodes, ∀ (s : String) (sub : List (String × Iface)),
    (s, Iface.map sub) ∈ m → sub ∈ filterNodes := by
  intro m hm s sub h
  simp only [filterNodes, List.mem_cons, List.mem_singleton, List.not_mem_nil, or_false] at hm
  rcases hm with rfl | rfl | rfl | rfl
  · simp [ec2Filters] at h
    simp [filterNodes, h.2]
  · simp [metaData] at h
    simp [filterNodes, h.2]
  · simp [operatingSystem] at h
    simp [filterNodes, h.2]
  · simp [licenseActivation] at h

theorem TrimPrefix_append (p r : String) : TrimPrefix (p ++ r) p = r := by
  have h : p.data.isPrefixOf (p ++ r).data = true := by
    rw [List.isPrefixOf_iff_prefix]
    simp [String.data_append]
  simp [TrimPrefix, h, String.data_append]

theorem dropWhile_replicate_append (p : Char → Bool) (a : Char) (k : Nat) (l : List Char)
    (ha : p a = true) : (List.replicate k a ++ l).dropWhile p = l.dropWhile p := by
  induction k with
  | zero => simp
  | succ n ih => simp [List.replicate_succ, List.dropWhile_cons, ha, ih]

theorem TrimRight_slashes (body : String) (k : Nat) (c : Char) (r : List Char)
    (hb : body.data.reverse = c :: r) (hc : c ≠ '/') :
    TrimRight (body ++ String.mk (List.replicate k '/')) "/" = body := by
  unfold TrimRight
  have h1 : (body ++ String.mk (List.replicate k '/')).data.reverse
      = List.replicate k '/' ++ body.data.reverse := by
    simp [String.data_append]
  rw [h1, dropWhile_replicate_append _ _ _ _ (by simp), hb]
  have : List.dropWhile (fun c => decide (c ∈ "/".data)) (c :: r) = c :: r := by
    simp [List.dropWhile_cons, hc]
  rw [this, ← hb]
  simp

theorem joinSegments_reverse (segs : List String) (hne : segs ≠ [])
    (h : ∀ s ∈ segs, cleanKey s) :
    ∃ c r, (joinSegments segs).data.reverse = c :: r ∧ c ≠ '/' := by
  induction segs with
  | nil => exact absurd rfl hne
  | cons s rest ih =>
    cases rest with
    | nil =>
      have hs := h s (by simp)
      cases hrev : s.data.reverse with
      | nil => simp at hrev; exact absurd hrev hs.1
      | cons c r =>
        refine ⟨c, r, by simpa [joinSegments] using hrev, ?_⟩
        have : c ∈ s.data := by
          have : c ∈ s.data.reverse := by rw [hrev]; simp
          simpa using this
        intro e; exact hs.2 (e ▸ this)
    | cons t rest =>
      obtain ⟨c, r, hr, hc⟩ := ih (by simp) (fun x hx => h x (by simp [hx]))
      refine ⟨c, r ++ '/' :: s.data.reverse, ?_, hc⟩
      rw [joinSegments_cons_cons]
      simp [String.data_append, hr]

theorem processLoop_terminal (segs : List String) :
    ∀ (m : List (String × Iface)) (base q : String),
      terminalQuery m segs = some q →
      processLoop segs base (.map m) = .ret (.str (base ++ q)) none := by
  induction segs with
  | nil => intro m base q h; simp [terminalQuery] at h
  | cons s rest ih =>
    intro m base q h
    cases rest with
    | nil =>
      by_cases hb : s = "_base"
      · simp [terminalQuery, hb] at h
      · simp only [terminalQuery, hb, if_false] at h
        cases hi : Iface.index m s with
        | nil => simp [hi] at h
        | map sub => simp [hi] at h
        | str e =>
          simp [hi] at h
          simp [processLoop, hb, hi, Sprint, h]
    | cons t rest =>
      by_cases hb : s = "_base"
      · simp [terminalQuery, hb] at h
      · simp only [terminalQuery, hb, if_false] at h
        cases hi : Iface.index m s with
        | nil => simp [hi] at h
        | str e => simp [hi] at h
        | map sub =>
          simp only [hi] at h
          cases hsb : Iface.index sub "_base" with
          | nil => simp [hsb] at h
          | map x => simp [hsb] at h
          | str b =>
            simp only [hsb, Option.map_eq_some'] at h
            obtain ⟨q', hq', rfl⟩ := h
            have := ih sub (Sprint base b) q' hq'
            rw [processLoop]
            simp only [hb, if_false, hi, hsb]
            rw [this]
            simp [Sprint, String.append_assoc]

theorem terminalQuery_clean (segs : List String) :
    ∀ m ∈ filterNodes, ∀ q, terminalQuery m segs = some q → ∀ s ∈ segs, cleanKey s := by
  induction segs with
  | nil => intro m _ q h; simp [terminalQuery] at h
  | cons s rest ih =>
    intro m hm q h
    cases rest with
    | nil =>
      by_cases hb : s = "_base"
      · simp [terminalQuery, hb] at h
      · simp only [terminalQuery, hb, if_false] at h
        cases hi : Iface.index m s with
        | nil => simp [hi] at h
        | map sub => simp [hi] at h
        | str e =>
          intro x hx
          simp at hx
          subst hx
          exact nodes_keys_clean m hm _ (mem_keys_of_mem m _ _ (index_mem_of_str m _ e hi))
    | cons t rest =>
      by_cases hb : s = "_base"
      · simp [terminalQuery, hb] at h
      · simp only [terminalQuery, hb, if_false] at h
        cases hi : Iface.index m s with
        | nil => simp [hi] at h
        | str e => simp [hi] at h
        | map sub =>
          simp only [hi] at h
          cases hsb : Iface.index sub "_base" with
          | nil => simp [hsb] at h
          | map x => simp [hsb] at h
          | str b =>
            simp only [hsb, Option.map_eq_some'] at h
            obtain ⟨q', hq', _⟩ := h
            have hmem := index_mem_of_map m s sub hi
            have hsub := nodes_closed m hm s sub hmem
            intro x hx
            rcases List.mem_cons.1 hx with rfl | hx
            · exact nodes_keys_clean m hm _ (mem_keys_of_mem m _ _ hmem)
            · exact ih sub hsub q' hq' x hx

theorem accessorsOf_path (segs : List String) (k : Nat) (hne : segs ≠ [])
    (h : ∀ s ∈ segs, cleanKey s) :
    accessorsOf ("/2009-04-04/" ++ (joinSegments segs ++ String.mk (List.replicate k '/')))
      = segs := by
  obtain ⟨c, r, hr, hc⟩ := joinSegments_reverse segs hne h
  unfold accessorsOf
  rw [TrimPrefix_append, TrimRight_slashes _ k c r hr hc]
  unfold Split
  rw [splitChars_joinSegments segs hne h]
  have hid : (String.mk ∘ String.data) = id := by funext s; rfl
  simp [hid]


/-! ## C1: paths down to a Terminal -/

/-- C1. For every path `"/2009-04-04/" + s1/.../sn` followed by any number of
trailing slashes, in which `s1..s(n-1)` name nested Composite nodes of
`ec2Filters` and `sn` names a Terminal child of the node reached,
`processEC2Query` returns without error the string made of the `_base`
prefixes of the Composite nodes traversed, in path order, followed by the
Terminal's expression. -/
theorem processEC2Query_terminal (segs : List String) (k : Nat) (q : String)
    (h : terminalQuery ec2Filters segs = some q) :
    processEC2Query ("/2009-04-04/" ++ joinSegments segs ++ String.mk (List.replicate k '/'))
      = .ret (.str q) none := by
  have hne : segs ≠ [] := by
    rintro rfl; simp [terminalQuery] at h
  have hclean := terminalQuery_clean segs ec2Filters (by simp [filterNodes]) q h
  unfold processEC2Query
  rw [String.append_assoc, accessorsOf_path segs k hne hclean]
  simpa using processLoop_terminal segs ec2Filters "" q h

/-- C1 at the three paths the claim names, and at one with trailing slashes. -/
theorem processEC2Query_terminal_witness :
    terminalQuery ec2Filters ["meta-data", "hostname"] = some ".metadata.instance.hostname"
    ∧ processEC2Query "/2009-04-04/meta-data/hostname"
        = .ret (.str ".metadata.instance.hostname") none
    ∧ processEC2Query "/2009-04-04/user-data" = .ret (.str ".metadata.userdata") none
    ∧ processEC2Query "/2009-04-04/meta-data/operating-system/license_activation/state"
        = .ret (.str ".metadata.instance.operating_system.license_activation.state") none
    ∧ processEC2Query "/2009-04-04/meta-data/public-keys//"
        = .ret (.str ".metadata.instance.ssh_keys[]") none :=
  ⟨rfl,
   processEC2Query_terminal ["meta-data", "hostname"] 0 _ rfl,
   processEC2Query_terminal ["user-data"] 0 _ rfl,
   processEC2Query_terminal ["meta-data", "operating-system", "license_activation", "state"] 0 _ rfl,
   processEC2Query_terminal ["meta-data", "public-keys"] 2 _ rfl⟩

/-! ## The resolver on the remaining paths -/

/-- A run of the loop that ends at a Composite node without error goes on,
when accessors follow, from that node with some accumulated base. -/
theorem processLoop_append (pre : List String) :
    ∀ (base : String) (res : Iface) (m : List (String × Iface)),
      processLoop pre base res = .ret (.map m) none →
      ∃ base', ∀ rest, processLoop (pre ++ rest) base res = processLoop rest base' (.map m) := by
  induction pre with
  | nil =>
    intro base res m h
    simp only [processLoop, GoResult.ret.injEq, and_true] at h
    exact ⟨base, fun rest => by simp [h]⟩
  | cons a pre ih =>
    intro base res m h
    by_cases hb : a = "_base"
    · simp [processLoop, hb] at h
    · cases res with
      | nil => simp [processLoop, hb] at h
      | str s => simp [processLoop, hb] at h
      | map m0 =>
        cases hi : Iface.index m0 a with
        | nil => simp [processLoop, hb, hi] at h
        | str e =>
          simp only [processLoop, hb, if_false, hi] at h
          obtain ⟨base', hb'⟩ := ih _ _ m h
          exact ⟨base', fun rest => by
            simp only [List.cons_append, processLoop, hb, if_false, hi]
            exact hb' rest⟩
        | map sub =>
          cases hsb : Iface.index sub "_base" with
          | nil => simp [processLoop, hb, hi, hsb] at h
          | map x => simp [processLoop, hb, hi, hsb] at h
          | str b =>
            simp only [processLoop, hb, if_false, hi, hsb] at h
            obtain ⟨base', hb'⟩ := ih _ _ m h
            exact ⟨base', fun rest => by
              simp only [List.cons_append, processLoop, hb, if_false, hi, hsb]
              exact hb' rest⟩

/-- At a Composite node, an accessor that is not a key of the node ends the
loop with the error and a `nil` result. -/
theorem processLoop_unknown (seg : String) (post : List String) (base : String)
    (m : List (String × Iface)) (h : seg ∉ Iface.keys m) :
    processLoop (seg :: post) base (.map m) = .ret .nil (some invalidMetadataItem) := by
  by_cases hb : seg = "_base"
  · simp [processLoop, hb]
  · simp [processLoop, hb, index_nil_of_not_key m seg h]

/-- A run of the loop over accessors that include `_base` never returns a
result: it ends with the error, or it panics. -/
theorem processLoop_base (accessors : List String) :
    ∀ (base : String) (res : Iface), "_base" ∈ accessors →
      processLoop accessors base res = .ret .nil (some invalidMetadataItem)
      ∨ processLoop accessors base res = .panic := by
  induction accessors with
  | nil => intro _ _ h; simp at h
  | cons a rest ih =>
    intro base res h
    by_cases hb : a = "_base"
    · left; simp [processLoop, hb]
    · have hrest : "_base" ∈ rest := by
        rcases List.mem_cons.1 h with e | e
        · exact absurd e.symm hb
        · exact e
      cases res with
      | nil => right; simp [processLoop, hb]
      | str s => right; simp [processLoop, hb]
      | map m0 =>
        cases hi : Iface.index m0 a with
        | nil => left; simp [processLoop, hb, hi]
        | str e =>
          simp only [processLoop, hb, if_false, hi]
          exact ih _ _ hrest
        | map sub =>
          cases hsb : Iface.index sub "_base" with
          | nil => right; simp [processLoop, hb, hi, hsb]
          | map x => right; simp [processLoop, hb, hi, hsb]
          | str b =>
            simp only [processLoop, hb, if_false, hi, hsb]
            exact ih _ _ hrest

/-- C3, evaluated. The path `/2009-04-04/user-data/x/_base` has a `_base`
segment, and `processEC2Query` panics on it: `user-data` resolves to a
Terminal, and the type assertion on `res` at the next segment `x` fails before
`_base` is reached. A `_base` right after the Terminal is still rejected. -/
theorem processEC2Query_base_after_terminal :
    "_base" ∈ accessorsOf "/2009-04-04/user-data/x/_base"
    ∧ processEC2Query "/2009-04-04/user-data/x/_base" = .panic
    ∧ processEC2Query "/2009-04-04/user-data/_base" = .ret .nil (some invalidMetadataItem) :=
  ⟨by decide, rfl, rfl⟩

/-- C4. When the resolver, having consumed the accessors `pre` of a path
without error, is positioned at a Composite node `m` (the root for an empty
`pre`, a nested map otherwise) and the next accessor `seg` is not a key of
`m`, `processEC2Query` returns the `nil` result with the error "invalid
metadata item". -/
theorem processEC2Query_unknown_segment (query : String) (pre post : List String)
    (seg : String) (m : List (String × Iface))
    (hacc : accessorsOf query = pre ++ seg :: post)
    (hpos : processLoop pre "" (.map ec2Filters) = .ret (.map m) none)
    (hkey : seg ∉ Iface.keys m) :
    processEC2Query query = .ret .nil (some "invalid metadata item") := by
  obtain ⟨base', h⟩ := processLoop_append pre "" (.map ec2Filters) m hpos
  unfold processEC2Query
  rw [hacc, h, processLoop_unknown seg post base' m hkey]
  rfl

/-- C4 at the empty segment of a doubled slash below `meta-data`. -/
theorem processEC2Query_unknown_segment_witness :
    accessorsOf "/2009-04-04/meta-data//hostname" = ["meta-data"] ++ "" :: ["hostname"]
    ∧ processLoop ["meta-data"] "" (.map ec2Filters) = .ret (.map metaData) none
    ∧ "" ∉ Iface.keys metaData
    ∧ processEC2Query "/2009-04-04/meta-data//hostname"
        = .ret .nil (some "invalid metadata item") :=
  ⟨rfl, rfl, by decide,
   processEC2Query_unknown_segment "/2009-04-04/meta-data//hostname" ["meta-data"]
     ["hostname"] "" metaData rfl rfl (by decide)⟩

/-- C5, evaluated. On a path with a further segment after a Terminal,
`processEC2Query` panics: the type assertion `res.(map[string]interface{})`
is applied to the string the Terminal resolved to. -/
theorem processEC2Query_panics_after_terminal :
    processEC2Query "/2009-04-04/meta-data/hostname/foo" = .panic
    ∧ processEC2Query "/2009-04-04/user-data/x" = .panic :=
  ⟨rfl, rfl⟩

/-- C6, evaluated. With no segment after the version prefix the accessors
are not empty: `strings.Split` of the empty string yields one empty accessor,
and `/2009-04-04` without the slash keeps its text. The resolver looks the
empty accessor up in the root and returns the error, not the root. -/
theorem processEC2Query_version_root :
    accessorsOf "/2009-04-04/" = [""]
    ∧ processEC2Query "/2009-04-04/" = .ret .nil (some invalidMetadataItem)
    ∧ accessorsOf "/2009-04-04" = ["", "2009-04-04"]
    ∧ processEC2Query "/2009-04-04" = .ret .nil (some invalidMetadataItem)
    ∧ processEC2Query "/2009-04-04///" = .ret .nil (some invalidMetadataItem) :=
  ⟨rfl, rfl, rfl, rfl, rfl⟩

/-! ## The availability tracker -/

theorem runProbes_concat (history : List (Option String)) (err : Option String) (s : Tracker) :
    runProbes (history ++ [err]) s = checkHardwareClientHealth err (runProbes history s) := by
  simp [runProbes, List.foldl_append]

theorem runProbes_cons (history : List (Option String)) (err : Option String) (s : Tracker) :
    runProbes (err :: history) s = runProbes history (checkHardwareClientHealth err s) := rfl

/-- After a streak of successful probes the success counter has grown by the
length of the streak, and the flag is set once the streak is not empty. -/
theorem runProbes_successes (n : Nat) :
    ∀ s : Tracker,
      (runProbes (List.replicate n none) s).cacherHealthcheckTrue = s.cacherHealthcheckTrue + n
      ∧ (0 < n → (runProbes (List.replicate n none) s).isHardwareClientAvailable = true) := by
  induction n with
  | zero => intro s; simp [runProbes]
  | succ n ih =>
    intro s
    rw [List.replicate_succ, runProbes_cons]
    obtain ⟨h1, h2⟩ := ih (checkHardwareClientHealth none s)
    refine ⟨?_, fun _ => ?_⟩
    · rw [h1]; simp [checkHardwareClientHealth]; omega
    · rcases Nat.eq_zero_or_pos n with h0 | hpos
      · subst h0; simp [runProbes, checkHardwareClientHealth]
      · exact h2 hpos

/-- The flag after a history of probes is the outcome of the most recent
probe, and the initial value when there was none. -/
theorem runProbes_flag (history : List (Option String)) (s : Tracker) :
    (runProbes history s).isHardwareClientAvailable =
      match history.getLast? with
      | none => s.isHardwareClientAvailable
      | some none => true
      | some (some _) => false := by
  induction history using List.reverseRecOn with
  | nil => simp [runProbes]
  | append_singleton l a _ =>
    rw [runProbes_concat, List.getLast?_append]
    cases a <;> simp [checkHardwareClientHealth]

/-- C7. From the initial state, after `N ≥ 1` consecutive successful probes
the flag is Available and the success counter equals `N`; and from every
reachable state, whatever probes came before, one failing probe leaves the
flag Unavailable, increments the failure counter by exactly one and leaves
the success counter unchanged. -/
theorem tracker_streak_then_failure (N : Nat) (hN : 0 < N)
    (history : List (Option String)) (e : String) :
    (runProbes (List.replicate N none) Tracker.initial).isHardwareClientAvailable = true
    ∧ (runProbes (List.replicate N none) Tracker.initial).cacherHealthcheckTrue = N
    ∧ (checkHardwareClientHealth (some e)
        (runProbes history Tracker.initial)).isHardwareClientAvailable = false
    ∧ (checkHardwareClientHealth (some e)
        (runProbes history Tracker.initial)).cacherHealthcheckFalse
        = (runProbes history Tracker.initial).cacherHealthcheckFalse + 1
    ∧ (checkHardwareClientHealth (some e)
        (runProbes history Tracker.initial)).cacherHealthcheckTrue
        = (runProbes history Tracker.initial).cacherHealthcheckTrue := by
  obtain ⟨h1, h2⟩ := runProbes_successes N Tracker.initial
  refine ⟨h2 hN, ?_, ?_, ?_, ?_⟩
  · rw [h1]; simp [Tracker.initial]
  · simp [checkHardwareClientHealth]
  · simp [checkHardwareClientHealth]
  · simp [checkHardwareClientHealth]

/-- C7 at a streak of three successes, and at a failure after a streak of
five. -/
theorem tracker_streak_then_failure_witness :
    0 < 3
    ∧ (runProbes [none, none, none] Tracker.initial).isHardwareClientAvailable = true
    ∧ (runProbes [none, none, none] Tracker.initial).cacherHealthcheckTrue = 3
    ∧ (runProbes [none, none, none, none, none, some "rpc error"]
        Tracker.initial).isHardwareClientAvailable = false
    ∧ (runProbes [none, none, none, none, none, some "rpc error"]
        Tracker.initial).cacherHealthcheckFalse = 1
    ∧ (runProbes [none, none, none, none, none, some "rpc error"]
        Tracker.initial).cacherHealthcheckTrue = 5 := by
  have h := tracker_streak_then_failure 3 (by decide) [none, none, none, none, none] "rpc error"
  exact ⟨by decide, h.1, h.2.1, h.2.2.1, h.2.2.2.1, h.2.2.2.2⟩

/-! ## The health check -/

/-- The status the health check sends, when marshalling succeeds: 200 for a
set flag, 500 otherwise. -/
theorem healthCheckHandler_status (env : Env) (flag : Bool)
    (hm : (env.marshalHealth flag).2 = none) :
    (healthCheckHandler env flag ResponseWriter.fresh).status
      = if flag then some 200 else some 500 := by
  cases flag <;>
    simp [healthCheckHandler, hm, ResponseWriter.WriteHeader, ResponseWriter.SetHeader,
      ResponseWriter.Write, ResponseWriter.fresh]

/-- C8 as stated fails at the empty history: before the first tick the
health check sends 500, and no probe has failed. -/
theorem healthStatus_before_first_probe :
    ¬ (healthStatus sampleEnv [] = some 500 ↔ lastProbeFailed []) := by
  intro h
  obtain ⟨e, he⟩ := h.1 rfl
  simp at he

/-- C8, amended. For every history of probes, when the response marshals, the
status code the health check sends is 500 if and only if no probe has run yet
or the most recent probe failed, and 200 otherwise. -/
theorem healthStatus_iff (env : Env) (history : List (Option String))
    (hm : ∀ flag, (env.marshalHealth flag).2 = none) :
    (healthStatus env history = some 500 ↔ (history = [] ∨ lastProbeFailed history))
    ∧ (¬ (history = [] ∨ lastProbeFailed history) → healthStatus env history = some 200) := by
  unfold healthStatus
  rw [healthCheckHandler_status env _ (hm _), runProbes_flag]
  unfold lastProbeFailed
  cases hl : history.getLast? with
  | none =>
    have : history = [] := List.getLast?_eq_none_iff.1 hl
    simp [this, Tracker.initial]
  | some a =>
    have hne : history ≠ [] := by
      rintro rfl; simp at hl
    cases a <;> simp [hne]

/-- C8, amended, at the empty history, after a failure, and after a success
that follows a failure. -/
theorem healthStatus_iff_witness :
    (∀ flag, (sampleEnv.marshalHealth flag).2 = none)
    ∧ healthStatus sampleEnv [] = some 500
    ∧ healthStatus sampleEnv [none, some "rpc error"] = some 500
    ∧ healthStatus sampleEnv [some "rpc error", none] = some 200 := by
  have h0 := healthStatus_iff sampleEnv [] (fun _ => rfl)
  have h1 := healthStatus_iff sampleEnv [none, some "rpc error"] (fun _ => rfl)
  have h2 := healthStatus_iff sampleEnv [some "rpc error", none] (fun _ => rfl)
  refine ⟨fun _ => rfl, h0.1.2 (Or.inl rfl), h1.1.2 (Or.inr ⟨"rpc error", rfl⟩), h2.2 ?_⟩
  rintro (h | ⟨e, he⟩)
  · simp at h
  · simp at he

/-! ## The listing built by `ec2Handler` -/

theorem writeOK_fresh (resp : String) :
    writeOK ResponseWriter.fresh resp
      = { status := some 200, header := [("Content-Type", "application/json")],
          sentHeader := [], body := resp } := by
  simp [writeOK, ResponseWriter.WriteHeader, ResponseWriter.SetHeader, ResponseWriter.Write,
    ResponseWriter.fresh]

/-- The loop over the items appends one line per item other than `_base`
and `spot`. -/
theorem listItems_eq (items : List String) :
    ∀ resp : String,
      listItems items resp
        = resp ++ linesOf (items.filter (fun k => decide (k ≠ "_base" ∧ k ≠ "spot"))) := by
  induction items with
  | nil => intro resp; simp [listItems, linesOf]
  | cons item rest ih =>
    intro resp
    by_cases hb : item = "_base"
    · simp [listItems, hb, ih]
    · by_cases hs : item = "spot"
      · simp [listItems, hs, ih]
      · simp [listItems, hb, hs, ih, Sprintln, linesOf, String.append_assoc]

/-- No two keys of a Composite node of the tree are equal. -/
theorem nodes_keys_nodup : ∀ m ∈ filterNodes, (Iface.keys m).Nodup := by
  decide

/-- From a Terminal the loop never ends at a Composite node. -/
theorem processLoop_str_ne_map (accessors : List String) (base s : String)
    (m : List (String × Iface)) :
    processLoop accessors base (.str s) ≠ .ret (.map m) none := by
  cases accessors with
  | nil => simp [processLoop]
  | cons a rest =>
    by_cases hb : a = "_base" <;> simp [processLoop, hb]

/-- The Composite node at which a run of the loop ends is a node of the
tree, when the run starts at one. -/
theorem processLoop_node (accessors : List String) :
    ∀ (base : String) (m0 m : List (String × Iface)), m0 ∈ filterNodes →
      processLoop accessors base (.map m0) = .ret (.map m) none → m ∈ filterNodes := by
  induction accessors with
  | nil =>
    intro base m0 m h0 h
    simp only [processLoop, GoResult.ret.injEq, Iface.map.injEq, and_true] at h
    exact h ▸ h0
  | cons a rest ih =>
    intro base m0 m h0 h
    by_cases hb : a = "_base"
    · simp [processLoop, hb] at h
    · cases hi : Iface.index m0 a with
      | nil => simp [processLoop, hb, hi] at h
      | str e =>
        simp only [processLoop, hb, if_false, hi] at h
        exact absurd h (processLoop_str_ne_map _ _ _ _)
      | map sub =>
        cases hsb : Iface.index sub "_base" with
        | nil => simp [processLoop, hb, hi, hsb] at h
        | map x => simp [processLoop, hb, hi, hsb] at h
        | str b =>
          simp only [processLoop, hb, if_false, hi, hsb] at h
          exact ih _ sub m (nodes_closed m0 h0 a sub (index_mem_of_map m0 a sub hi)) h

/-- For every path that `processEC2Query` resolves to a Composite node `m`,
whatever order `range` visits the keys of `m` in, the body `ec2Handler` builds
for a `GET` request with a known caller is a sequence of newline-terminated
lines, one name per line and none twice, and the names are the keys of `m`
other than `_base` and other than `spot`, whatever the record is. -/
theorem ec2Handler_listing_names (env : Env) (r : Request) (m : List (String × Iface))
    (hw : String)
    (hget : r.Method = "GET") (hip : getIPFromRequest env r ≠ "")
    (hlook : env.getByIP (getIPFromRequest env r) = (hw, none))
    (hres : processEC2Query r.Path = .ret (.map m) none)
    (hrange : (env.rangeOrder m).Perm (Iface.keys m)) :
    ∃ names : List String,
      (ec2Handler env r ResponseWriter.fresh).w.body = linesOf names
      ∧ names.Nodup
      ∧ ∀ k, k ∈ names ↔ (k ∈ Iface.keys m ∧ k ≠ "_base" ∧ k ≠ "spot") := by
  have hm : m ∈ filterNodes :=
    processLoop_node _ "" ec2Filters m (by simp [filterNodes]) hres
  refine ⟨(env.rangeOrder m).filter (fun k => decide (k ≠ "_base" ∧ k ≠ "spot")),
    ?_, ?_, ?_⟩
  · simp [ec2Handler, hget, hip, hlook, hres, writeOK_fresh, listItems_eq]
  · exact (hrange.nodup_iff.2 (nodes_keys_nodup m hm)).filter _
  · intro k
    simp [List.mem_filter, hrange.mem_iff]

/-- C2, evaluated. The path `/2009-04-04/meta-data/` resolves to the Composite
node `meta-data`, of which `spot` is a declared child. For a caller whose
record is that of a spot instance the body `ec2Handler` builds has the eleven
other names and no `spot` line, and it is the same body for every record: the
`case "spot":` is empty and the record is never consulted, although the
comment beside it says the item is left out only when the instance is not a
spot instance. -/
theorem ec2Handler_listing_omits_spot :
    processEC2Query "/2009-04-04/meta-data/" = .ret (.map metaData) none
    ∧ "spot" ∈ Iface.keys metaData
    ∧ (recordEnv spotRecord).getByIP "10.0.0.7" = (spotRecord, none)
    ∧ (ec2Handler (recordEnv spotRecord) (getRequest "/2009-04-04/meta-data/")
        ResponseWriter.fresh).w.body
        = "instance-id\nhostname\niqn\nplan\nfacility\ntags\noperating-system\npublic-keys\npublic-ipv4\npublic-ipv6\nlocal-ipv4\n"
    ∧ ∀ hw : String,
        (ec2Handler (recordEnv hw) (getRequest "/2009-04-04/meta-data/")
          ResponseWriter.fresh).w.body
        = "instance-id\nhostname\niqn\nplan\nfacility\ntags\noperating-system\npublic-keys\npublic-ipv4\npublic-ipv6\nlocal-ipv4\n" :=
  ⟨rfl, by decide, rfl, rfl, fun _ => rfl⟩

/-! ## Status codes of the metadata handlers -/

/-- An error returned by the loop comes with a `nil` result and is the
"invalid metadata item" error. -/
theorem processLoop_error (accessors : List String) :
    ∀ (base : String) (res v : Iface) (e : String),
      processLoop accessors base res = .ret v (some e) →
      v = .nil ∧ e = invalidMetadataItem := by
  induction accessors with
  | nil => intro base res v e h; simp [processLoop] at h
  | cons a rest ih =>
    intro base res v e h
    by_cases hb : a = "_base"
    · simp only [processLoop, hb, if_true, GoResult.ret.injEq, Option.some.injEq] at h
      exact ⟨h.1.symm, h.2.symm⟩
    · cases res with
      | nil => simp [processLoop, hb] at h
      | str s => simp [processLoop, hb] at h
      | map m0 =>
        cases hi : Iface.index m0 a with
        | nil =>
          simp only [processLoop, hb, if_false, hi, GoResult.ret.injEq, Option.some.injEq] at h
          exact ⟨h.1.symm, h.2.symm⟩
        | str f =>
          simp only [processLoop, hb, if_false, hi] at h
          exact ih _ _ v e h
        | map sub =>
          cases hsb : Iface.index sub "_base" with
          | nil => simp [processLoop, hb, hi, hsb] at h
          | map x => simp [processLoop, hb, hi, hsb] at h
          | str b =>
            simp only [processLoop, hb, if_false, hi, hsb] at h
            exact ih _ _ v e h

/-- The responses of `ec2Handler` to a `GET` request of a known caller whose
record was fetched: 404 with the body `404 not found` when resolution fails,
500 with no body when the query executor fails, 200 with the produced bytes
when it succeeds. -/
theorem ec2Handler_responses (env : Env) (r : Request) (hw : String)
    (hget : r.Method = "GET") (hip : getIPFromRequest env r ≠ "")
    (hlook : env.getByIP (getIPFromRequest env r) = (hw, none)) :
    (∀ v e, processEC2Query r.Path = .ret v (some e) →
      (ec2Handler env r ResponseWriter.fresh).w.status = some 404
      ∧ (ec2Handler env r ResponseWriter.fresh).w.body = "404 not found")
    ∧ (∀ filter resp e, processEC2Query r.Path = .ret (.str filter) none →
      env.filterMetadata hw filter = (resp, some e) →
      (ec2Handler env r ResponseWriter.fresh).w.status = some 500
      ∧ (ec2Handler env r ResponseWriter.fresh).w.body = "")
    ∧ (∀ filter resp, processEC2Query r.Path = .ret (.str filter) none →
      env.filterMetadata hw filter = (resp, none) →
      (ec2Handler env r ResponseWriter.fresh).w.status = some 200
      ∧ (ec2Handler env r ResponseWriter.fresh).w.body = resp) := by
  refine ⟨?_, ?_, ?_⟩
  · intro v e h
    obtain ⟨rfl, _⟩ := processLoop_error _ _ _ v e h
    simp [ec2Handler, hget, hip, hlook, h, writeOK, ResponseWriter.WriteHeader,
      ResponseWriter.SetHeader, ResponseWriter.Write, ResponseWriter.fresh]
  · intro filter resp e h hf
    simp [ec2Handler, hget, hip, hlook, h, hf, ResponseWriter.WriteHeader,
      ResponseWriter.fresh]
  · intro filter resp h hf
    simp [ec2Handler, hget, hip, hlook, h, hf, writeOK_fresh]

/-- C9, evaluated. A `GET` on a custom endpoint from a known caller, in
filtered mode, with a query executor that fails: `getMetadata` sends 200.
`ec2Handler` sends 500 when the same executor fails. -/
theorem getMetadata_status_when_filter_fails :
    getIPFromRequest filterFailsEnv (getRequest "/metadata") = "10.0.0.7"
    ∧ filterFailsEnv.getByIP "10.0.0.7" = ("hw", none)
    ∧ filterFailsEnv.filterMetadata "hw" ".metadata" = ("", some "invalid filter")
    ∧ (getMetadata filterFailsEnv ".metadata" (getRequest "/metadata")
        ResponseWriter.fresh).w.status = some 200
    ∧ (ec2Handler filterFailsEnv (getRequest "/2009-04-04/meta-data/hostname")
        ResponseWriter.fresh).w.status = some 500 :=
  ⟨rfl, rfl, rfl, rfl, rfl⟩

/-- C10. For a `GET` request with a non-empty caller IP whose backend lookup
returns an error, `ec2Handler` and the `getMetadata` handler each send status
500 with an empty body and return, and the calls they made are exactly: the
request counter, the lookup, and one increment of the error metric under
`("metadata", "lookup")`; neither path resolution nor query execution ran. -/
theorem lookup_failure_response (env : Env) (filter : String) (r : Request) (hw e : String)
    (hget : r.Method = "GET") (hip : getIPFromRequest env r ≠ "")
    (hlook : env.getByIP (getIPFromRequest env r) = (hw, some e)) :
    ec2Handler env r ResponseWriter.fresh
      = { w := { status := some 500, header := [], sentHeader := [], body := "" },
          events := [Event.metadataRequestsInc, Event.getByIP (getIPFromRequest env r),
            Event.errorsInc "metadata" "lookup"],
          ending := Ending.returned }
    ∧ getMetadata env filter r ResponseWriter.fresh = ec2Handler env r ResponseWriter.fresh
    ∧ (ec2Handler env r ResponseWriter.fresh).events.count
        (Event.errorsInc "metadata" "lookup") = 1
    ∧ ∀ ev ∈ (ec2Handler env r ResponseWriter.fresh).events,
        (∀ p, ev ≠ Event.processEC2Query p) ∧ (∀ h f, ev ≠ Event.filterMetadata h f)
        ∧ (∀ h, ev ≠ Event.exportHardware h) := by
  have h1 : ec2Handler env r ResponseWriter.fresh
      = { w := { status := some 500, header := [], sentHeader := [], body := "" },
          events := [Event.metadataRequestsInc, Event.getByIP (getIPFromRequest env r),
            Event.errorsInc "metadata" "lookup"],
          ending := Ending.returned } := by
    simp [ec2Handler, hget, hip, hlook, ResponseWriter.WriteHeader, ResponseWriter.fresh]
  have h2 : getMetadata env filter r ResponseWriter.fresh
      = ec2Handler env r ResponseWriter.fresh := by
    rw [h1]
    simp [getMetadata, hget, hip, hlook, ResponseWriter.WriteHeader, ResponseWriter.fresh]
  refine ⟨h1, h2, ?_, ?_⟩
  · rw [h1]
    simp [List.count_cons]
  · rw [h1]
    intro ev hev
    simp only [List.mem_cons, List.mem_singleton, List.not_mem_nil, or_false] at hev
    rcases hev with rfl | rfl | rfl <;> simp

/-- C10 at a request from `10.0.0.7:4321` whose lookup fails. -/
theorem lookup_failure_response_witness :
    (getRequest "/2009-04-04/meta-data/hostname").Method = "GET"
    ∧ getIPFromRequest lookupFailsEnv (getRequest "/2009-04-04/meta-data/hostname") ≠ ""
    ∧ lookupFailsEnv.getByIP "10.0.0.7" = ("", some "not found")
    ∧ (ec2Handler lookupFailsEnv (getRequest "/2009-04-04/meta-data/hostname")
        ResponseWriter.fresh).w.status = some 500
    ∧ (getMetadata lookupFailsEnv ".metadata" (getRequest "/2009-04-04/meta-data/hostname")
        ResponseWriter.fresh).events
        = [Event.metadataRequestsInc, Event.getByIP "10.0.0.7",
            Event.errorsInc "metadata" "lookup"] := by
  have h := lookup_failure_response lookupFailsEnv ".metadata"
    (getRequest "/2009-04-04/meta-data/hostname") "" "not found" rfl (by decide) rfl
  refine ⟨rfl, by decide, rfl, ?_, ?_⟩
  · rw [h.1]
  · rw [h.2.1, h.1]
    rfl

end Hegel
